import Mathlib

/-!
Verification of the leave-one-out evaluator and fit-quality evaluator of the
music-ratings analysis notebook (`src/analysis.ipynb`, functions
`loocv_regression` and `evaluate`).

The notebook's data frames indexed by album are embedded as association lists
`List (Key × _)` (first match wins on lookup, as for a pandas index used as a
key); its numeric values (floats) are embedded as an arbitrary linearly
ordered type for the cross-validation harness and as real numbers for the
metric formulas.  The fitted model passed to `loocv_regression` (default
`Ridge(alpha=100)`) is embedded as an abstract state type with `fit` and
`predict` functions, with `fit` threading the mutable estimator state exactly
as the Python object does.
-/

set_option linter.unusedVariables false

namespace MusicRatings

/-- Entity key: an album identifier, the index of every data frame involved. -/
abbrev Key := String

/-- Error taxonomy of the specification for the evaluation pipeline.
`keyMismatch` corresponds to the `KeyError` that pandas `.loc` raises on a
missing label; the other two names are reserved by the specification for
conditions the notebook is claimed to reject. -/
inductive EvalError where
  | keyMismatch
  | emptyDataset
  | degenerateTarget
  deriving DecidableEq, Repr

/-- Label lookup in an album-indexed frame: the value stored at key `k`
(first match, as for a unique pandas index). -/
def lookupKey {β : Type} (k : Key) : List (Key × β) → Option β
  | [] => none
  | (k1, v) :: rest => if k1 = k then some v else lookupKey k rest

/-- One row of `data.fillna(fill)`: every missing (NaN) entry of the raw row
is replaced by the fill value. -/
def fillRow {α : Type} (fill : α) (r : List (Option α)) : List α :=
  r.map (fun o => o.getD fill)

/-- Embedding of `data.fillna(fill)` applied to the whole feature matrix at
once, before
the fold loop (line `data_f = data.fillna(fill)` of `loocv_regression`). -/
def fillna {α : Type} (fill : α) (data : List (Key × List (Option α))) :
    List (Key × List α) :=
  data.map (fun kr => (kr.1, fillRow fill kr.2))

/-- Embedding of `data_f.loc[keys]`: the row of each requested label in the requested
order; pandas raises `KeyError` (the spec's `KeyMismatch`) if any label is
absent from the frame. -/
def locRows {α : Type} (data_f : List (Key × List α)) :
    List Key → Except EvalError (List (Key × List α))
  | [] => Except.ok []
  | k :: ks =>
    match lookupKey k data_f with
    | none => Except.error EvalError.keyMismatch
    | some r =>
      match locRows data_f ks with
      | Except.error e => Except.error e
      | Except.ok rest => Except.ok ((k, r) :: rest)

/-- The trainable regression object handed to `loocv_regression`
(default `Ridge(alpha=100)`): a mutable estimator with state `σ`.
`fit s X y` returns the estimator state after `model.fit(X, y)` was called in
state `s`; `predict s row` is `model.predict(row_df)[0]` in state `s`. -/
structure Model (σ α : Type) where
  fit : σ → List (List α) → List α → σ
  predict : σ → List α → α

/-- One iteration of the fold loop of `loocv_regression`, holding out `index`:
`X = data_f.loc[my_ratings.index].drop(index)`,
`y = my_ratings.drop(index)["SCORE"]`, `model.fit(X, y)`, then
`pred = model.predict(data_f.loc[[index]])[0]`.
Returns the prediction (or the error raised) together with the estimator
state after the iteration. -/
def loocvStep {σ α : Type} (data_f : List (Key × List α))
    (my_ratings : List (Key × α)) (M : Model σ α) (index : Key) (s : σ) :
    Except EvalError α × σ :=
  match locRows data_f (my_ratings.map Prod.fst) with
  | Except.error e => (Except.error e, s)
  | Except.ok xrows =>
    let X := (xrows.filter (fun kr => kr.1 ≠ index)).map Prod.snd
    let y := (my_ratings.filter (fun kv => kv.1 ≠ index)).map Prod.snd
    let s1 := M.fit s X y
    match lookupKey index data_f with
    | none => (Except.error EvalError.keyMismatch, s1)
    | some row => (Except.ok (M.predict s1 row), s1)

/-- The fold loop of `loocv_regression`: one `loocvStep` per key of
`my_ratings`, in order, accumulating `(album, prediction)` pairs and
threading the estimator state; the first raised error aborts the loop. -/
def loocvLoop {σ α : Type} (data_f : List (Key × List α))
    (my_ratings : List (Key × α)) (M : Model σ α) :
    σ → List Key → Except EvalError (List (Key × α)) × σ
  | s, [] => (Except.ok [], s)
  | s, k :: ks =>
    match loocvStep data_f my_ratings M k s with
    | (Except.error e, s1) => (Except.error e, s1)
    | (Except.ok p, s1) =>
      match loocvLoop data_f my_ratings M s1 ks with
      | (Except.error e, s2) => (Except.error e, s2)
      | (Except.ok rest, s2) => (Except.ok ((k, p) :: rest), s2)

/-- Descending order on `(album, prediction)` pairs: the relation used by
`sort_values("prediction", ascending=False)`. -/
def predGE {α : Type} [LinearOrder α] (a b : Key × α) : Prop := b.2 ≤ a.2

instance {α : Type} [LinearOrder α] : DecidableRel (@predGE α _) :=
  fun a b => inferInstanceAs (Decidable (b.2 ≤ a.2))

instance {α : Type} [LinearOrder α] : IsTotal (Key × α) predGE :=
  ⟨fun a b => le_total b.2 a.2⟩

instance {α : Type} [LinearOrder α] : IsTrans (Key × α) predGE :=
  ⟨fun a b c h1 h2 => le_trans h2 h1⟩

/-- Embedding of `result.sort_values("prediction", ascending=False)`: the accumulated
predictions sorted by descending predicted value. -/
def sortPreds {α : Type} [LinearOrder α] (l : List (Key × α)) : List (Key × α) :=
  List.insertionSort predGE l

/-- Embedding of `loocv_regression(data, my_ratings, model, fill)` as a state
transformer: fill the feature matrix once, run the fold loop over the target
keys, sort the recorded predictions descending.  The second component is the
estimator state when the call returns (the Python `model` argument is aliased
mutable state, so that state outlives the call). -/
def loocv_regression_run {σ α : Type} [LinearOrder α] [OfNat α 2]
    (data : List (Key × List (Option α))) (my_ratings : List (Key × α))
    (M : Model σ α) (s0 : σ) (fill : α := 2) :
    Except EvalError (List (Key × α)) × σ :=
  let p := loocvLoop (fillna fill data) my_ratings M s0 (my_ratings.map Prod.fst)
  (p.1.map sortPreds, p.2)

/-- The value returned by `loocv_regression`: the sorted album → prediction
mapping (or the error raised). -/
def loocv_regression {σ α : Type} [LinearOrder α] [OfNat α 2]
    (data : List (Key × List (Option α))) (my_ratings : List (Key × α))
    (M : Model σ α) (s0 : σ) (fill : α := 2) :
    Except EvalError (List (Key × α)) :=
  (loocv_regression_run data my_ratings M s0 fill).1

/-- Modelled from the spec: the fold loop run directly on an already-filled
feature matrix, with no fill step of its own.  Used to state that
`loocv_regression` imputes once, globally, before the loop. -/
def loocvOnFilled {σ α : Type} [LinearOrder α] (data_f : List (Key × List α))
    (my_ratings : List (Key × α)) (M : Model σ α) (s0 : σ) :
    Except EvalError (List (Key × α)) :=
  ((loocvLoop data_f my_ratings M s0 (my_ratings.map Prod.fst)).1).map sortPreds

/-- Modelled from the spec: "training features = feature matrix rows for all
target-vector keys except k" (what `data_f.loc[my_ratings.index].drop(index)`
produces). -/
def trainFeatures {α : Type} (data_f : List (Key × List α))
    (my_ratings : List (Key × α)) (k : Key) : List (List α) :=
  ((my_ratings.map Prod.fst).filter (fun j => j ≠ k)).map
    (fun j => (lookupKey j data_f).getD [])

/-- Modelled from the spec: "training targets = target vector values for all
keys except k" (what `my_ratings.drop(index)["SCORE"]` produces). -/
def trainTargets {α : Type} (my_ratings : List (Key × α)) (k : Key) : List α :=
  (my_ratings.filter (fun kv => kv.1 ≠ k)).map Prod.snd

/-- Embedding of `sklearn.metrics.r2_score(y_true, y_pred)` for a single
output column:
`1 - Σ(t - p)² / Σ(t - mean(y_true))²` with sklearn's degenerate-case
branches: when the residual sum is zero the score is `1.0` regardless of the
denominator, and when the denominator is zero (constant `y_true`) but the
residual sum is not, the library sets the score to `0.0` instead of raising
or returning NaN.  The library has one further branch before all of these:
with fewer than two samples (`len(y_pred) < 2`) it warns and returns
`float("nan")`.  NaN is not a real number and has no faithful representative
in `ℝ`, so this embedding covers the two-or-more-samples branch only; every
theorem below that reads the R² component carries hypotheses (at least two
predictions, or two ground-truth entries with different values) confining it
to that branch. -/
noncomputable def r2_score (y_true y_pred : List ℝ) : ℝ :=
  if ((y_true.zip y_pred).map (fun tp => (tp.1 - tp.2) ^ 2)).sum ≠ 0 then
    if (y_true.map (fun t => (t - y_true.sum / (y_true.length : ℝ)) ^ 2)).sum ≠ 0 then
      1 - ((y_true.zip y_pred).map (fun tp => (tp.1 - tp.2) ^ 2)).sum
            / (y_true.map (fun t => (t - y_true.sum / (y_true.length : ℝ)) ^ 2)).sum
    else 0
  else 1

/-- Embedding of `sklearn.metrics.mean_squared_error(y_true, y_pred)`: the mean squared
residual. -/
noncomputable def mean_squared_error (y_true y_pred : List ℝ) : ℝ :=
  ((y_true.zip y_pred).map (fun tp => (tp.1 - tp.2) ^ 2)).sum / (y_true.length : ℝ)

/-- Embedding of `mean_squared_error(y_true, y_pred, squared=False)`: root mean squared
error, as computed on line `rmse = ...` of `evaluate`. -/
noncomputable def rmse (y_true y_pred : List ℝ) : ℝ :=
  Real.sqrt (mean_squared_error y_true y_pred)

/-- Embedding of the `pd.concat([predictions, my_ratings], axis=1)` row set,
as a list of
`(SCORE, prediction)` pairs: one pair per prediction key, joined with the
ground-truth value of the same key.  (On the matching-key inputs the claims
range over, the pandas outer alignment produces exactly these pairs; an
unmatched key would leave a NaN cell that the sklearn metrics reject.) -/
def joinPT {α : Type} (predictions my_ratings : List (Key × α)) : List (α × α) :=
  predictions.filterMap
    (fun kp => (lookupKey kp.1 my_ratings).map (fun t => (t, kp.2)))

/-- Embedding of `evaluate(predictions, my_ratings)`: joins the two frames on the album
key and returns `(r2_score(df.SCORE, df.prediction),
mean_squared_error(df.SCORE, df.prediction, squared=False))`. -/
noncomputable def evaluate (predictions my_ratings : List (Key × ℝ)) : ℝ × ℝ :=
  (r2_score ((joinPT predictions my_ratings).map Prod.fst)
      ((joinPT predictions my_ratings).map Prod.snd),
   rmse ((joinPT predictions my_ratings).map Prod.fst)
      ((joinPT predictions my_ratings).map Prod.snd))

/-- A concrete deterministic estimator used to instantiate the abstract model
in witnesses: `fit` re-estimates from scratch (it ignores the incoming state,
as sklearn estimators do) and stores the sum of the training targets;
`predict` adds the sum of the queried row. -/
def sumModel : Model ℤ ℤ where
  fit := fun _ X y => y.sum
  predict := fun s row => s + row.sum

/-- Album keys used in concrete witness data. -/
def kA : Key := "A"

/-- Album keys used in concrete witness data. -/
def kB : Key := "B"

/-- Album keys used in concrete witness data. -/
def kC : Key := "C"

/-- A small feature matrix with one missing entry, for witnesses. -/
def exData : List (Key × List (Option ℤ)) :=
  [(kA, [some 1, none]), (kB, [some 0, some 1])]

/-- A small target vector matching `exData`, for witnesses. -/
def exTgt : List (Key × ℤ) := [(kA, 1), (kB, 2)]

theorem lookupKey_isSome_iff {β : Type} (k : Key) (l : List (Key × β)) :
    (lookupKey k l).isSome ↔ k ∈ l.map Prod.fst := by
  induction l with
  | nil => simp [lookupKey]
  | cons hd tl ih =>
    obtain ⟨k1, v⟩ := hd
    by_cases h : k1 = k
    · subst h; simp [lookupKey]
    · simp [lookupKey, h, ih, Ne.symm h]

theorem lookupKey_fillna {α : Type} (fill : α) (k : Key)
    (data : List (Key × List (Option α))) :
    lookupKey k (fillna fill data) = Option.map (fillRow fill) (lookupKey k data) := by
  induction data with
  | nil => simp [lookupKey, fillna]
  | cons hd tl ih =>
    obtain ⟨k1, v⟩ := hd
    by_cases h : k1 = k
    · simp [lookupKey, fillna, h]
    · simp [lookupKey, fillna, h]
      exact ih

theorem lookupKey_mem {β : Type} {k : Key} {v : β} {l : List (Key × β)}
    (h : lookupKey k l = some v) : (k, v) ∈ l := by
  induction l with
  | nil => simp [lookupKey] at h
  | cons hd tl ih =>
    obtain ⟨k1, w⟩ := hd
    by_cases hk : k1 = k
    · subst hk
      simp [lookupKey] at h
      subst h
      exact List.mem_cons_self _ _
    · simp [lookupKey, hk] at h
      exact List.mem_cons_of_mem _ (ih h)

theorem fillna_keys {α : Type} (fill : α) (data : List (Key × List (Option α))) :
    (fillna fill data).map Prod.fst = data.map Prod.fst := by
  induction data with
  | nil => rfl
  | cons hd tl ih => simp [fillna]

theorem locRows_ok {α : Type} (data_f : List (Key × List α)) (ks : List Key)
    (h : ∀ k ∈ ks, k ∈ data_f.map Prod.fst) :
    locRows data_f ks =
      Except.ok (ks.map (fun k => (k, (lookupKey k data_f).getD []))) := by
  induction ks with
  | nil => simp [locRows]
  | cons k ks ih =>
    have hk : (lookupKey k data_f).isSome :=
      (lookupKey_isSome_iff k data_f).2 (h k (List.mem_cons_self _ _))
    obtain ⟨r, hr⟩ := Option.isSome_iff_exists.1 hk
    have ihh := ih (fun j hj => h j (List.mem_cons_of_mem _ hj))
    simp [locRows, hr, ihh]

theorem locRows_error {α : Type} (data_f : List (Key × List α)) {ks : List Key}
    {k : Key} (hk : k ∈ ks) (hmiss : lookupKey k data_f = none) :
    locRows data_f ks = Except.error EvalError.keyMismatch := by
  induction ks with
  | nil => simp at hk
  | cons k1 ks ih =>
    rcases List.mem_cons.1 hk with h | h
    · subst h; simp [locRows, hmiss]
    · cases hl : lookupKey k1 data_f with
      | none => simp [locRows, hl]
      | some r => simp [locRows, hl, ih h]

theorem loocvStep_ok {σ α : Type} (data_f : List (Key × List α))
    (my_ratings : List (Key × α)) (M : Model σ α) (k : Key) (s : σ)
    (hall : ∀ j ∈ my_ratings.map Prod.fst, j ∈ data_f.map Prod.fst)
    (hk : k ∈ my_ratings.map Prod.fst) :
    loocvStep data_f my_ratings M k s =
      (Except.ok (M.predict
          (M.fit s (trainFeatures data_f my_ratings k) (trainTargets my_ratings k))
          ((lookupKey k data_f).getD [])),
       M.fit s (trainFeatures data_f my_ratings k) (trainTargets my_ratings k)) := by
  have hrow : (lookupKey k data_f).isSome :=
    (lookupKey_isSome_iff k data_f).2 (hall k hk)
  obtain ⟨row, hrowEq⟩ := Option.isSome_iff_exists.1 hrow
  have hX : (((my_ratings.map Prod.fst).map
        (fun j => (j, (lookupKey j data_f).getD []))).filter
          (fun kr => kr.1 ≠ k)).map Prod.snd =
      trainFeatures data_f my_ratings k := by
    rw [List.filter_map, List.map_map]
    rfl
  simp only [loocvStep, locRows_ok data_f _ hall, hrowEq, hX]
  rfl

theorem loocvLoop_ok {σ α : Type} (data_f : List (Key × List α))
    (my_ratings : List (Key × α)) (M : Model σ α)
    (hall : ∀ j ∈ my_ratings.map Prod.fst, j ∈ data_f.map Prod.fst) :
    ∀ (ks : List Key) (s : σ), (∀ k ∈ ks, k ∈ my_ratings.map Prod.fst) →
      ∃ pairs s2, loocvLoop data_f my_ratings M s ks = (Except.ok pairs, s2) ∧
        pairs.map Prod.fst = ks := by
  intro ks
  induction ks with
  | nil => exact fun s _ => ⟨[], s, rfl, rfl⟩
  | cons k ks ih =>
    intro s h
    obtain ⟨pairs, s2, hloop, hkeys⟩ :=
      ih (M.fit s (trainFeatures data_f my_ratings k) (trainTargets my_ratings k))
        (fun j hj => h j (List.mem_cons_of_mem _ hj))
    refine ⟨(k, M.predict
        (M.fit s (trainFeatures data_f my_ratings k) (trainTargets my_ratings k))
        ((lookupKey k data_f).getD [])) :: pairs, s2, ?_, ?_⟩
    · simp [loocvLoop,
        loocvStep_ok data_f my_ratings M k s hall (h k (List.mem_cons_self _ _)),
        hloop]
    · simp [hkeys]

theorem loocvLoop_fst_congr {σ α : Type} (data_f : List (Key × List α))
    (my_ratings : List (Key × α)) (M : Model σ α)
    (hfit : ∀ s t X y, M.fit s X y = M.fit t X y) :
    ∀ (ks : List Key) (s0 s1 : σ),
      (loocvLoop data_f my_ratings M s0 ks).1 =
        (loocvLoop data_f my_ratings M s1 ks).1 := by
  intro ks
  induction ks with
  | nil => intro s0 s1; rfl
  | cons k ks ih =>
    intro s0 s1
    cases hloc : locRows data_f (my_ratings.map Prod.fst) with
    | error e => simp [loocvLoop, loocvStep, hloc]
    | ok xrows =>
      have hstep : loocvStep data_f my_ratings M k s0 =
          loocvStep data_f my_ratings M k s1 := by
        simp only [loocvStep, hloc]
        rw [hfit s0 s1]
      rw [loocvLoop, loocvLoop, hstep]

theorem lookupKey_filter {β : Type} (keys : List Key) {k : Key}
    (l : List (Key × β)) (hk : k ∈ keys) :
    lookupKey k (l.filter (fun kr => kr.1 ∈ keys)) = lookupKey k l := by
  induction l with
  | nil => rfl
  | cons hd tl ih =>
    obtain ⟨k1, v⟩ := hd
    by_cases h1 : k1 = k
    · subst h1
      simp [List.filter_cons, hk, lookupKey]
    · by_cases h2 : k1 ∈ keys <;> simp [List.filter_cons, h2, lookupKey, h1, ih]

theorem fillna_filter {α : Type} (fill : α) (keys : List Key)
    (data : List (Key × List (Option α))) :
    fillna fill (data.filter (fun kr => kr.1 ∈ keys)) =
      (fillna fill data).filter (fun kr => kr.1 ∈ keys) := by
  induction data with
  | nil => rfl
  | cons hd tl ih =>
    obtain ⟨k1, v⟩ := hd
    by_cases h : k1 ∈ keys <;> simp [fillna, List.filter_cons, h] <;>
      simpa [fillna] using ih

theorem locRows_filter {α : Type} (data_f : List (Key × List α))
    (keys : List Key) (ks : List Key) (h : ∀ k ∈ ks, k ∈ keys) :
    locRows (data_f.filter (fun kr => kr.1 ∈ keys)) ks = locRows data_f ks := by
  induction ks with
  | nil => rfl
  | cons k ks ih =>
    rw [locRows, locRows, lookupKey_filter keys data_f (h k (List.mem_cons_self _ _)),
      ih (fun j hj => h j (List.mem_cons_of_mem _ hj))]

theorem loocvStep_filter {σ α : Type} (data_f : List (Key × List α))
    (my_ratings : List (Key × α)) (M : Model σ α) (k : Key) (s : σ)
    (hk : k ∈ my_ratings.map Prod.fst) :
    loocvStep (data_f.filter (fun kr => kr.1 ∈ my_ratings.map Prod.fst))
        my_ratings M k s =
      loocvStep data_f my_ratings M k s := by
  rw [loocvStep, loocvStep,
    locRows_filter data_f (my_ratings.map Prod.fst) _ (fun j hj => hj),
    lookupKey_filter (my_ratings.map Prod.fst) data_f hk]

theorem loocvLoop_filter {σ α : Type} (data_f : List (Key × List α))
    (my_ratings : List (Key × α)) (M : Model σ α) :
    ∀ (ks : List Key) (s : σ), (∀ k ∈ ks, k ∈ my_ratings.map Prod.fst) →
      loocvLoop (data_f.filter (fun kr => kr.1 ∈ my_ratings.map Prod.fst))
          my_ratings M s ks =
        loocvLoop data_f my_ratings M s ks := by
  intro ks
  induction ks with
  | nil => intro s _; rfl
  | cons k ks ih =>
    intro s h
    rw [loocvLoop, loocvLoop,
      loocvStep_filter data_f my_ratings M k s (h k (List.mem_cons_self _ _))]
    cases loocvStep data_f my_ratings M k s with
    | mk r s1 =>
      cases r with
      | error e => rfl
      | ok p =>
        dsimp only
        rw [ih s1 (fun j hj => h j (List.mem_cons_of_mem _ hj))]

theorem sortPreds_sorted {α : Type} [LinearOrder α] (l : List (Key × α)) :
    (sortPreds l).Pairwise predGE :=
  List.sorted_insertionSort predGE l

theorem sortPreds_perm {α : Type} [LinearOrder α] (l : List (Key × α)) :
    List.Perm (sortPreds l) l :=
  List.perm_insertionSort predGE l

/-- Claim C1: for every feature matrix and non-empty target vector in which
some target key has no feature row, `loocv_regression` fails with the
KeyMismatch error (the `KeyError` of `data_f.loc[my_ratings.index]`); it
never returns a prediction mapping, so it cannot silently drop the key. -/
theorem loocv_keyMismatch_on_missing_row {σ α : Type} [LinearOrder α] [OfNat α 2]
    (data : List (Key × List (Option α))) (my_ratings : List (Key × α))
    (M : Model σ α) (s0 : σ) (fill : α) (k : Key)
    (hne : my_ratings ≠ []) (hk : k ∈ my_ratings.map Prod.fst)
    (hmiss : lookupKey k data = none) :
    loocv_regression data my_ratings M s0 fill =
      Except.error EvalError.keyMismatch := by
  have hmissf : lookupKey k (fillna fill data) = none := by
    rw [lookupKey_fillna, hmiss]; rfl
  have hloc : locRows (fillna fill data) (my_ratings.map Prod.fst) =
      Except.error EvalError.keyMismatch := locRows_error _ hk hmissf
  obtain ⟨hd, tl, htgt⟩ : ∃ hd tl, my_ratings = hd :: tl := by
    cases my_ratings with
    | nil => exact absurd rfl hne
    | cons hd tl => exact ⟨hd, tl, rfl⟩
  subst htgt
  simp only [loocv_regression, loocv_regression_run, List.map_cons, loocvLoop,
    loocvStep] at hloc ⊢
  rw [hloc]
  rfl

/-- Witness for C1: the spec's own example, target over keys A and B but
features only for A, fails with KeyMismatch. -/
theorem loocv_keyMismatch_on_missing_row_witness :
    ([(kA, (4:ℤ)), (kB, 3)] ≠ ([] : List (Key × ℤ))) ∧
    kB ∈ ([(kA, (4:ℤ)), (kB, 3)].map Prod.fst) ∧
    lookupKey kB [(kA, [some (1:ℤ), some 2])] = none ∧
    loocv_regression [(kA, [some (1:ℤ), some 2])] [(kA, 4), (kB, 3)]
        sumModel 0 2 =
      Except.error EvalError.keyMismatch :=
  ⟨by decide, by decide, by decide,
   loocv_keyMismatch_on_missing_row _ _ sumModel 0 2 kB (by decide) (by decide)
     (by decide)⟩

/-- Claim C2: in the fold that holds out key `k`, the model is fit exactly on
the feature rows of all target-vector keys other than `k`
(`trainFeatures`) and the target values of all keys other than `k`
(`trainTargets`); `k` itself appears in neither training input. -/
theorem loocv_fold_trains_without_heldout {σ α : Type}
    (data_f : List (Key × List α)) (my_ratings : List (Key × α))
    (M : Model σ α) (k : Key) (s : σ)
    (hall : ∀ j ∈ my_ratings.map Prod.fst, j ∈ data_f.map Prod.fst)
    (hk : k ∈ my_ratings.map Prod.fst) :
    loocvStep data_f my_ratings M k s =
      (Except.ok (M.predict
          (M.fit s (trainFeatures data_f my_ratings k) (trainTargets my_ratings k))
          ((lookupKey k data_f).getD [])),
       M.fit s (trainFeatures data_f my_ratings k) (trainTargets my_ratings k)) ∧
    k ∉ (my_ratings.map Prod.fst).filter (fun j => j ≠ k) ∧
    k ∉ (my_ratings.filter (fun kv => kv.1 ≠ k)).map Prod.fst := by
  refine ⟨loocvStep_ok data_f my_ratings M k s hall hk, ?_, ?_⟩
  · simp
  · simp [List.mem_map, List.mem_filter]

/-- Witness for C2: the fold holding out A on the concrete example data fits
on B's row and B's target only. -/
theorem loocv_fold_trains_without_heldout_witness :
    (∀ j ∈ exTgt.map Prod.fst, j ∈ (fillna 2 exData).map Prod.fst) ∧
    kA ∈ exTgt.map Prod.fst ∧
    (loocvStep (fillna 2 exData) exTgt sumModel kA 0 =
      (Except.ok (sumModel.predict
          (sumModel.fit 0 (trainFeatures (fillna 2 exData) exTgt kA)
            (trainTargets exTgt kA))
          ((lookupKey kA (fillna 2 exData)).getD [])),
       sumModel.fit 0 (trainFeatures (fillna 2 exData) exTgt kA)
         (trainTargets exTgt kA)) ∧
     kA ∉ (exTgt.map Prod.fst).filter (fun j => j ≠ kA) ∧
     kA ∉ (exTgt.filter (fun kv => kv.1 ≠ kA)).map Prod.fst) :=
  ⟨by decide, by decide,
   loocv_fold_trains_without_heldout (fillna 2 exData) exTgt sumModel kA 0
     (by decide) (by decide)⟩

/-- Claim C3: on a non-empty feature matrix and non-empty target vector with
matching key sets, `loocv_regression` succeeds with exactly one prediction
per target key: the output keys are a permutation of the target keys (and so
the same set, with the same multiplicities and total count). -/
theorem loocv_one_prediction_per_key {σ α : Type} [LinearOrder α] [OfNat α 2]
    (data : List (Key × List (Option α))) (my_ratings : List (Key × α))
    (M : Model σ α) (s0 : σ) (fill : α)
    (hdne : data ≠ []) (htne : my_ratings ≠ [])
    (hkeys : ∀ j, j ∈ data.map Prod.fst ↔ j ∈ my_ratings.map Prod.fst) :
    ∃ out, loocv_regression data my_ratings M s0 fill = Except.ok out ∧
      List.Perm (out.map Prod.fst) (my_ratings.map Prod.fst) ∧
      (∀ j, j ∈ out.map Prod.fst ↔ j ∈ my_ratings.map Prod.fst) ∧
      out.length = my_ratings.length ∧
      ((my_ratings.map Prod.fst).Nodup → (out.map Prod.fst).Nodup) := by
  have hall : ∀ j ∈ my_ratings.map Prod.fst, j ∈ (fillna fill data).map Prod.fst := by
    intro j hj; rw [fillna_keys]; exact (hkeys j).2 hj
  obtain ⟨pairs, s2, hloop, hpk⟩ :=
    loocvLoop_ok (fillna fill data) my_ratings M hall (my_ratings.map Prod.fst) s0
      (fun j hj => hj)
  have hperm : List.Perm ((sortPreds pairs).map Prod.fst) (my_ratings.map Prod.fst) := by
    rw [← hpk]
    exact (sortPreds_perm pairs).map Prod.fst
  refine ⟨sortPreds pairs, ?_, hperm, fun j => hperm.mem_iff, ?_, fun h => ?_⟩
  · simp [loocv_regression, loocv_regression_run, hloop, Except.map]
  · have h1 : ((sortPreds pairs).map Prod.fst).length =
        (my_ratings.map Prod.fst).length := hperm.length_eq
    simpa using h1
  · exact ((hperm.nodup_iff).2 h)

/-- Witness for C3: on the concrete example data the evaluator returns one
prediction for each of the two target keys. -/
theorem loocv_one_prediction_per_key_witness :
    (exData ≠ []) ∧ (exTgt ≠ []) ∧
    (∀ j, j ∈ exData.map Prod.fst ↔ j ∈ exTgt.map Prod.fst) ∧
    (∃ out, loocv_regression exData exTgt sumModel 0 2 = Except.ok out ∧
      List.Perm (out.map Prod.fst) (exTgt.map Prod.fst) ∧
      (∀ j, j ∈ out.map Prod.fst ↔ j ∈ exTgt.map Prod.fst) ∧
      out.length = exTgt.length ∧
      ((exTgt.map Prod.fst).Nodup → (out.map Prod.fst).Nodup)) :=
  ⟨by decide, by decide, fun j => Iff.rfl,
   loocv_one_prediction_per_key exData exTgt sumModel 0 2 (by decide) (by decide)
     (fun j => Iff.rfl)⟩

/-- Claim C5 counterexample: on an empty target vector the notebook's
`loocv_regression` does not fail at all — the fold loop body never runs and
an empty prediction frame is returned. -/
theorem loocv_empty_target_returns_ok_concrete :
    loocv_regression exData ([] : List (Key × ℤ)) sumModel 0 2 =
      Except.ok [] := rfl

/-- Claim C5 amended: when the target vector is empty, `loocv_regression`
returns an empty prediction mapping; it does not fail with EmptyDataset (no
such check exists in the code). -/
theorem loocv_empty_target_returns_empty {σ α : Type} [LinearOrder α] [OfNat α 2]
    (data : List (Key × List (Option α))) (M : Model σ α) (s0 : σ) (fill : α) :
    loocv_regression data ([] : List (Key × α)) M s0 fill = Except.ok [] := rfl

/-- Claim C6: missing entries are imputed exactly once, globally, before the
fold loop — `loocv_regression` equals the no-fill loop `loocvOnFilled` run on
the single filled copy `fillna fill data`, every row any fold reads comes
from that copy (third conjunct), and the fill value defaults to 2 when not
supplied (first conjunct). -/
theorem loocv_fill_once_and_default {σ α : Type} [LinearOrder α] [OfNat α 2]
    (data : List (Key × List (Option α))) (my_ratings : List (Key × α))
    (M : Model σ α) (s0 : σ) (fill : α) :
    loocv_regression data my_ratings M s0 = loocv_regression data my_ratings M s0 2 ∧
    loocv_regression data my_ratings M s0 fill =
      loocvOnFilled (fillna fill data) my_ratings M s0 ∧
    ∀ k, lookupKey k (fillna fill data) = Option.map (fillRow fill) (lookupKey k data) :=
  ⟨rfl, rfl, fun k => lookupKey_fillna fill k data⟩

/-- Claim C8: any successful result of `loocv_regression` is sorted by
descending predicted value: for positions `i < j` the prediction at `i` is at
least the prediction at `j`. -/
theorem loocv_result_sorted_descending {σ α : Type} [LinearOrder α] [OfNat α 2]
    (data : List (Key × List (Option α))) (my_ratings : List (Key × α))
    (M : Model σ α) (s0 : σ) (fill : α) (out : List (Key × α))
    (h : loocv_regression data my_ratings M s0 fill = Except.ok out) :
    ∀ (i j : Fin out.length), i < j → (out.get j).2 ≤ (out.get i).2 := by
  obtain ⟨pairs, rfl⟩ : ∃ pairs, out = sortPreds pairs := by
    simp only [loocv_regression, loocv_regression_run] at h
    cases hres : (loocvLoop (fillna fill data) my_ratings M s0
        (my_ratings.map Prod.fst)).1 with
    | error e => rw [hres] at h; cases h
    | ok pairs =>
      rw [hres] at h
      simp only [Except.map] at h
      injection h with h1
      exact ⟨pairs, h1.symm⟩
  exact fun i j hij => List.pairwise_iff_get.1 (sortPreds_sorted pairs) i j hij

/-- Witness for C8: the concrete run returns predictions 5 then 2, and the
entry at position 1 is at most the entry at position 0. -/
theorem loocv_result_sorted_descending_witness :
    loocv_regression exData exTgt sumModel 0 2 = Except.ok [(kA, 5), (kB, 2)] ∧
    (([(kA, (5:ℤ)), (kB, 2)].get ⟨1, by decide⟩).2 ≤
      ([(kA, (5:ℤ)), (kB, 2)].get ⟨0, by decide⟩).2) :=
  ⟨rfl,
   loocv_result_sorted_descending exData exTgt sumModel 0 2 [(kA, 5), (kB, 2)]
     rfl ⟨0, by decide⟩ ⟨1, by decide⟩ (by decide)⟩

/-- Claim C9 counterexample: a call to `loocv_regression` does touch state
that outlives it — the estimator passed in (in the notebook, the shared
default `Ridge(alpha=100)` object) still holds the last fold's fit when the
call returns, so its state after the call differs from its state before. -/
theorem loocv_model_state_survives_call :
    (loocv_regression_run exData exTgt sumModel 0 2).2 ≠ 0 := by decide

/-- Claim C9 amended: the estimator state carried into a call never affects
the returned predictions, because `fit` re-estimates from scratch each fold;
so although the shared model object's state survives a call, two successive
calls receive identical results and neither can observe the leftover state
through the evaluator's output. -/
theorem loocv_result_independent_of_model_state {σ α : Type} [LinearOrder α]
    [OfNat α 2] (data : List (Key × List (Option α)))
    (my_ratings : List (Key × α)) (M : Model σ α) (s0 s1 : σ) (fill : α)
    (hfit : ∀ s t X y, M.fit s X y = M.fit t X y) :
    loocv_regression data my_ratings M s0 fill =
      loocv_regression data my_ratings M s1 fill := by
  simp only [loocv_regression, loocv_regression_run]
  rw [loocvLoop_fst_congr _ _ M hfit (my_ratings.map Prod.fst) s0 s1]

/-- Witness for C9 amended: starting the concrete estimator at state 0 or at
state 37 yields the same predictions. -/
theorem loocv_result_independent_of_model_state_witness :
    loocv_regression exData exTgt sumModel 0 2 =
      loocv_regression exData exTgt sumModel 37 2 :=
  loocv_result_independent_of_model_state exData exTgt sumModel 0 37 2
    (fun s t X y => rfl)

/-- Claim C10: feature rows whose keys are not target keys never influence
the result — deleting them first yields the same outcome, because every fold
restricts the feature matrix to the target keys before dropping the held-out
one. -/
theorem loocv_ignores_rows_outside_target {σ α : Type} [LinearOrder α]
    [OfNat α 2] (data : List (Key × List (Option α)))
    (my_ratings : List (Key × α)) (M : Model σ α) (s0 : σ) (fill : α) :
    loocv_regression (data.filter (fun kr => kr.1 ∈ my_ratings.map Prod.fst))
        my_ratings M s0 fill =
      loocv_regression data my_ratings M s0 fill := by
  simp only [loocv_regression, loocv_regression_run]
  rw [fillna_filter,
    loocvLoop_filter (fillna fill data) my_ratings M (my_ratings.map Prod.fst) s0
      (fun j hj => hj)]

theorem sum_sq_nonneg (l : List (ℝ × ℝ)) :
    0 ≤ (l.map (fun tp => (tp.1 - tp.2) ^ 2)).sum := by
  apply List.sum_nonneg
  intro x hx
  obtain ⟨tp, _, rfl⟩ := List.mem_map.1 hx
  exact sq_nonneg _

theorem sum_nonneg_eq_zero_iff {l : List ℝ} (h : ∀ x ∈ l, 0 ≤ x) :
    l.sum = 0 ↔ ∀ x ∈ l, x = 0 := by
  induction l with
  | nil => simp
  | cons a l ih =>
    have ha := h a (List.mem_cons_self _ _)
    have hl : ∀ x ∈ l, 0 ≤ x := fun x hx => h x (List.mem_cons_of_mem _ hx)
    have hsum : 0 ≤ l.sum := List.sum_nonneg hl
    simp only [List.sum_cons, List.mem_cons]
    constructor
    · intro h0
      have ha0 : a = 0 := le_antisymm (by linarith) ha
      have hl0 : l.sum = 0 := by linarith
      intro x hx
      rcases hx with rfl | hx
      · exact ha0
      · exact (ih hl).1 hl0 x hx
    · intro hall
      have h1 : a = 0 := hall a (Or.inl rfl)
      have h2 : l.sum = 0 := (ih hl).2 (fun x hx => hall x (Or.inr hx))
      rw [h1, h2, add_zero]

theorem zip_map_fst_snd {β : Type} (l : List (β × β)) :
    (l.map Prod.fst).zip (l.map Prod.snd) = l := by
  rw [List.zip_map']
  simp

theorem joinPT_length {α : Type} (predictions my_ratings : List (Key × α))
    (h : ∀ kp ∈ predictions, (lookupKey kp.1 my_ratings).isSome) :
    (joinPT predictions my_ratings).length = predictions.length := by
  induction predictions with
  | nil => rfl
  | cons kp l ih =>
    obtain ⟨t, ht⟩ := Option.isSome_iff_exists.1 (h kp (List.mem_cons_self _ _))
    have ihh := ih (fun q hq => h q (List.mem_cons_of_mem _ hq))
    simp [joinPT, ht] at ihh ⊢
    exact ihh

theorem joinPT_mem_of {α : Type} {predictions my_ratings : List (Key × α)}
    {kp : Key × α} {t : α} (hkp : kp ∈ predictions)
    (ht : lookupKey kp.1 my_ratings = some t) :
    (t, kp.2) ∈ joinPT predictions my_ratings := by
  apply List.mem_filterMap.2
  exact ⟨kp, hkp, by rw [ht]; rfl⟩

theorem of_mem_joinPT {α : Type} {predictions my_ratings : List (Key × α)}
    {tp : α × α} (h : tp ∈ joinPT predictions my_ratings) :
    ∃ kp ∈ predictions, lookupKey kp.1 my_ratings = some tp.1 ∧ kp.2 = tp.2 := by
  obtain ⟨kp, hkp, hf⟩ := List.mem_filterMap.1 h
  cases hl : lookupKey kp.1 my_ratings with
  | none => rw [hl] at hf; cases hf
  | some t =>
    rw [hl] at hf
    simp only [Option.map_some'] at hf
    injection hf with hf1
    refine ⟨kp, hkp, ?_, ?_⟩
    · rw [hl, ← hf1]
    · rw [← hf1]

/-- Claim C7: on matching non-empty, non-degenerate inputs, the RMSE returned
by `evaluate` is nonnegative, it is zero exactly when every prediction equals
the ground-truth value of its key, and the returned R² equals 1 when every
prediction equals the ground-truth value of its key. -/
theorem evaluate_rmse_nonneg_zero_iff_r2_one
    (predictions my_ratings : List (Key × ℝ))
    (hne : predictions ≠ [])
    (hkeys : ∀ j, j ∈ predictions.map Prod.fst ↔ j ∈ my_ratings.map Prod.fst)
    (hnondeg : ∃ p ∈ my_ratings, ∃ q ∈ my_ratings, p.2 ≠ q.2) :
    0 ≤ (evaluate predictions my_ratings).2 ∧
    ((evaluate predictions my_ratings).2 = 0 ↔
      ∀ kp ∈ predictions, lookupKey kp.1 my_ratings = some kp.2) ∧
    ((∀ kp ∈ predictions, lookupKey kp.1 my_ratings = some kp.2) →
      (evaluate predictions my_ratings).1 = 1) := by
  have hsome : ∀ kp ∈ predictions, (lookupKey kp.1 my_ratings).isSome := by
    intro kp hkp
    exact (lookupKey_isSome_iff _ _).2
      ((hkeys kp.1).1 (List.mem_map_of_mem Prod.fst hkp))
  have hlen : (joinPT predictions my_ratings).length = predictions.length :=
    joinPT_length _ _ hsome
  have hlenne : ((joinPT predictions my_ratings).length : ℝ) ≠ 0 := by
    rw [hlen]
    exact Nat.cast_ne_zero.2 (fun h => hne (List.length_eq_zero.1 h))
  have hterms : ∀ x ∈ (joinPT predictions my_ratings).map
      (fun tp => (tp.1 - tp.2) ^ 2), 0 ≤ x := by
    intro x hx
    obtain ⟨tp, _, rfl⟩ := List.mem_map.1 hx
    exact sq_nonneg _
  have hS : 0 ≤ ((joinPT predictions my_ratings).map
      (fun tp => (tp.1 - tp.2) ^ 2)).sum := sum_sq_nonneg _
  have hiff : ((joinPT predictions my_ratings).map
        (fun tp => (tp.1 - tp.2) ^ 2)).sum = 0 ↔
      ∀ kp ∈ predictions, lookupKey kp.1 my_ratings = some kp.2 := by
    rw [sum_nonneg_eq_zero_iff hterms]
    constructor
    · intro hz kp hkp
      obtain ⟨t, ht⟩ := Option.isSome_iff_exists.1 (hsome kp hkp)
      have hmem : (t, kp.2) ∈ joinPT predictions my_ratings :=
        joinPT_mem_of hkp ht
      have h0 : (t - kp.2) ^ 2 = 0 := hz _ (List.mem_map_of_mem _ hmem)
      have h1 : t = kp.2 :=
        sub_eq_zero.1 ((pow_eq_zero_iff (by norm_num : (2:ℕ) ≠ 0)).1 h0)
      rw [ht, h1]
    · intro hp x hx
      obtain ⟨tp, htp, rfl⟩ := List.mem_map.1 hx
      obtain ⟨kp, hkp, hl, he⟩ := of_mem_joinPT htp
      have h2 := hp kp hkp
      rw [hl] at h2
      injection h2 with h2
      rw [← he, h2, sub_self]
      exact zero_pow (by norm_num : (2:ℕ) ≠ 0)
  refine ⟨?_, ?_, ?_⟩
  · simp only [evaluate, rmse]
    exact Real.sqrt_nonneg _
  · simp only [evaluate, rmse, mean_squared_error, zip_map_fst_snd,
      List.length_map]
    rw [Real.sqrt_eq_zero']
    constructor
    · intro hle
      have hq : 0 ≤ ((joinPT predictions my_ratings).map
            (fun tp => (tp.1 - tp.2) ^ 2)).sum /
          ((joinPT predictions my_ratings).length : ℝ) :=
        div_nonneg hS (Nat.cast_nonneg _)
      have heq := le_antisymm hle hq
      rw [div_eq_zero_iff] at heq
      rcases heq with h0 | h0
      · exact hiff.1 h0
      · exact absurd h0 hlenne
    · intro hp
      rw [hiff.2 hp]
      simp
  · intro hp
    simp only [evaluate, r2_score, zip_map_fst_snd, List.length_map]
    rw [if_neg (not_not_intro (hiff.2 hp))]

/-- Witness for C7: predictions identical to ground truth on two keys give
RMSE 0 (and only then) and R² 1. -/
theorem evaluate_rmse_nonneg_zero_iff_r2_one_witness :
    0 ≤ (evaluate [(kA, (1:ℝ)), (kB, 2)] [(kA, 1), (kB, 2)]).2 ∧
    ((evaluate [(kA, (1:ℝ)), (kB, 2)] [(kA, 1), (kB, 2)]).2 = 0 ↔
      ∀ kp ∈ [(kA, (1:ℝ)), (kB, 2)],
        lookupKey kp.1 [(kA, (1:ℝ)), (kB, 2)] = some kp.2) ∧
    ((∀ kp ∈ [(kA, (1:ℝ)), (kB, 2)],
        lookupKey kp.1 [(kA, (1:ℝ)), (kB, 2)] = some kp.2) →
      (evaluate [(kA, (1:ℝ)), (kB, 2)] [(kA, 1), (kB, 2)]).1 = 1) :=
  evaluate_rmse_nonneg_zero_iff_r2_one [(kA, 1), (kB, 2)] [(kA, 1), (kB, 2)]
    (by simp) (fun j => Iff.rfl)
    ⟨(kA, 1), by simp, (kB, 2), by simp, by norm_num⟩

/-- Claim C4 counterexample: on the spec's zero-variance example (all
ground-truth values 3) the notebook's `evaluate` does not fail — sklearn's
`r2_score` takes its degenerate branch and the call returns the numeric R²
value 0.0. -/
theorem evaluate_zero_variance_returns_numeric :
    (evaluate [(kA, 3), (kB, 4), (kC, 2)] [(kA, 3), (kB, 3), (kC, 3)]).1 = 0 := by
  have hjoin : joinPT [(kA, (3:ℝ)), (kB, 4), (kC, 2)] [(kA, 3), (kB, 3), (kC, 3)] =
      [(3, 3), (3, 4), (3, 2)] := by
    simp [joinPT, lookupKey, kA, kB, kC]
  simp only [evaluate, r2_score, hjoin]
  norm_num

/-- Claim C4 amended: on matching inputs with at least two predictions whose
ground truth has zero variance (all values equal) while some prediction
differs, `evaluate` returns R² = 0 (sklearn's convention for a constant
target with nonzero residual) instead of failing with DegenerateTarget.
The two-predictions hypothesis keeps the statement inside the branch of
`r2_score` this file embeds: with fewer than two samples sklearn returns
NaN — still a numeric result, not a DegenerateTarget failure. -/
theorem evaluate_zero_variance_r2_eq_zero
    (predictions my_ratings : List (Key × ℝ)) (c : ℝ)
    (hne : predictions ≠ [])
    (hlen2 : 2 ≤ predictions.length)
    (hkeys : ∀ j, j ∈ predictions.map Prod.fst ↔ j ∈ my_ratings.map Prod.fst)
    (hconst : ∀ kv ∈ my_ratings, kv.2 = c)
    (hbad : ∃ kp ∈ predictions, kp.2 ≠ c) :
    (evaluate predictions my_ratings).1 = 0 := by
  have hsome : ∀ kp ∈ predictions, (lookupKey kp.1 my_ratings).isSome := by
    intro kp hkp
    exact (lookupKey_isSome_iff _ _).2
      ((hkeys kp.1).1 (List.mem_map_of_mem Prod.fst hkp))
  have hlen : (joinPT predictions my_ratings).length = predictions.length :=
    joinPT_length _ _ hsome
  have hlenne : ((joinPT predictions my_ratings).length : ℝ) ≠ 0 := by
    rw [hlen]
    exact Nat.cast_ne_zero.2 (fun h => hne (List.length_eq_zero.1 h))
  have hconstdf : ∀ x ∈ (joinPT predictions my_ratings).map Prod.fst, x = c := by
    intro x hx
    obtain ⟨tp, htp, rfl⟩ := List.mem_map.1 hx
    obtain ⟨kp, hkp, hl, _⟩ := of_mem_joinPT htp
    exact hconst (kp.1, tp.1) (lookupKey_mem hl)
  have hsum : ((joinPT predictions my_ratings).map Prod.fst).sum =
      ((joinPT predictions my_ratings).length : ℝ) * c := by
    rw [List.eq_replicate_of_mem hconstdf, List.sum_replicate, List.length_map,
      nsmul_eq_mul]
  have hmean : ((joinPT predictions my_ratings).map Prod.fst).sum /
      ((joinPT predictions my_ratings).length : ℝ) = c := by
    rw [hsum, mul_comm, mul_div_assoc, div_self hlenne, mul_one]
  have hden : (((joinPT predictions my_ratings).map Prod.fst).map
      (fun t => (t - ((joinPT predictions my_ratings).map Prod.fst).sum /
        ((joinPT predictions my_ratings).length : ℝ)) ^ 2)).sum = 0 := by
    refine (sum_nonneg_eq_zero_iff ?_).2 ?_
    · intro x hx
      obtain ⟨t, htm, rfl⟩ := List.mem_map.1 hx
      exact sq_nonneg _
    · intro x hx
      obtain ⟨t, htm, rfl⟩ := List.mem_map.1 hx
      rw [hconstdf t htm, hmean, sub_self]
      exact zero_pow (by norm_num : (2:ℕ) ≠ 0)
  have hterms : ∀ x ∈ (joinPT predictions my_ratings).map
      (fun tp => (tp.1 - tp.2) ^ 2), 0 ≤ x := by
    intro x hx
    obtain ⟨tp, _, rfl⟩ := List.mem_map.1 hx
    exact sq_nonneg _
  obtain ⟨kp, hkp, hkpc⟩ := hbad
  obtain ⟨t, ht⟩ := Option.isSome_iff_exists.1 (hsome kp hkp)
  have htc : t = c := hconst (kp.1, t) (lookupKey_mem ht)
  have hmem : ((t - kp.2) ^ 2) ∈ (joinPT predictions my_ratings).map
      (fun tp => (tp.1 - tp.2) ^ 2) :=
    List.mem_map_of_mem _ (joinPT_mem_of hkp ht)
  have hne2 : t ≠ kp.2 := by
    rw [htc]
    exact fun hh => hkpc hh.symm
  have hgt : 0 < (t - kp.2) ^ 2 :=
    lt_of_le_of_ne (sq_nonneg _)
      (Ne.symm (pow_ne_zero 2 (sub_ne_zero.2 hne2)))
  have hpos : 0 < ((joinPT predictions my_ratings).map
      (fun tp => (tp.1 - tp.2) ^ 2)).sum :=
    lt_of_lt_of_le hgt (List.single_le_sum hterms _ hmem)
  simp only [evaluate, r2_score, zip_map_fst_snd, List.length_map]
  rw [if_pos (ne_of_gt hpos), if_neg (not_not_intro hden)]

/-- Witness for C4 amended: ground truth constant at 3 on two keys with one
prediction off (5) yields R² = 0 from `evaluate`. -/
theorem evaluate_zero_variance_r2_eq_zero_witness :
    (evaluate [(kA, (5:ℝ)), (kB, 3)] [(kA, 3), (kB, 3)]).1 = 0 :=
  evaluate_zero_variance_r2_eq_zero [(kA, 5), (kB, 3)] [(kA, 3), (kB, 3)] 3
    (by simp) (by simp) (fun j => Iff.rfl)
    (by
      intro kv hkv
      simp only [List.mem_cons, List.not_mem_nil, or_false] at hkv
      rcases hkv with rfl | rfl <;> norm_num)
    ⟨(kA, 5), by simp, by norm_num⟩

end MusicRatings
